/-
Verification of the `readconf` package (tusj/go-readconfig).

The source is a small Go module that resolves a per-program configuration
file across a layered search path (user root from $XDG_CONFIG_HOME or
$HOME/.config, then /etc, then a scratch copy under /tmp), and watches the
resolved file for changes through inotify.

Paths are modelled as `List Char` (a Go string is a byte/char sequence).
The pure path functions from Go's `path` package (`Clean`, `Join`, `Dir`,
`Base`, `Split`) are embedded below by their documented lexical algorithm;
all filesystem- and environment-touching operations are embedded as explicit
state passing over an `FS` record that carries the environment, file
contents, directory permissions, and per-path error injections standing for
environment-caused I/O failures.
-/
import Mathlib

set_option autoImplicit false

/-! ### Go `path` package: lexical path manipulation -/

/-- Split a char sequence on `'/'`, keeping empty segments
(`strings.Split(s, "/")` semantics): `"a//b"` yields `["a", "", "b"]`. -/
def splitSlash : List Char → List (List Char)
  | [] => [[]]
  | c :: rest =>
    if c = '/' then [] :: splitSlash rest
    else
      match splitSlash rest with
      | [] => [[c]]
      | g :: gs => (c :: g) :: gs

/-- Join path elements with single slashes (`strings.Join(elems, "/")`). -/
def intercalateSlash : List (List Char) → List Char
  | [] => []
  | [e] => e
  | e :: es => e ++ '/' :: intercalateSlash es

/-- The `..`-resolution pass of `path.Clean`: walk the (already `.`-free and
empty-free) elements left to right keeping a backward accumulator; an inner
`..` cancels the preceding element, a leading `..` is kept on a relative
path and dropped on a rooted one. -/
def resolveDots (rooted : Bool) (acc : List (List Char)) :
    List (List Char) → List (List Char)
  | [] => acc.reverse
  | e :: es =>
    if e = ['.', '.'] then
      match acc with
      | [] =>
        if rooted then resolveDots rooted [] es
        else resolveDots rooted [e] es
      | a :: as' =>
        if a = ['.', '.'] then resolveDots rooted (e :: acc) es
        else resolveDots rooted as' es
    else resolveDots rooted (e :: acc) es

/-- Whether a path is rooted (starts with a slash). -/
def isRooted (s : List Char) : Bool :=
  decide (s.head? = some '/')

/-- Go `path.Clean`: collapse repeated slashes, drop `.` elements, resolve
`..` elements, return `"."` for an empty result (or `"/"` when rooted). -/
def cleanChars (s : List Char) : List Char :=
  if s = [] then ['.']
  else
    if resolveDots (isRooted s) []
        ((splitSlash s).filter (fun e => decide (e ≠ [] ∧ e ≠ ['.']))) = [] then
      (if isRooted s then ['/'] else ['.'])
    else if isRooted s then
      '/' :: intercalateSlash (resolveDots (isRooted s) []
        ((splitSlash s).filter (fun e => decide (e ≠ [] ∧ e ≠ ['.']))))
    else
      intercalateSlash (resolveDots (isRooted s) []
        ((splitSlash s).filter (fun e => decide (e ≠ [] ∧ e ≠ ['.']))))

/-- Go `path.Join`: join the elements from the first non-empty one with
slashes and `Clean` the result; all-empty input gives the empty path. -/
def joinChars (elems : List (List Char)) : List Char :=
  if elems.dropWhile (fun e => decide (e = [])) = [] then []
  else cleanChars (intercalateSlash (elems.dropWhile (fun e => decide (e = []))))

/-- Go `path.Split`: split after the final slash into (dir incl. trailing
slash, file); with no slash the dir part is empty.  Computed on the
reversed sequence. -/
def lastSlashSplit (s : List Char) : List Char × List Char :=
  ((s.reverse.dropWhile (fun c => decide (c ≠ '/'))).reverse,
   (s.reverse.takeWhile (fun c => decide (c ≠ '/'))).reverse)

/-- Go `path.Dir`: the `Clean`ed directory part of `path.Split`. -/
def dirChars (s : List Char) : List Char :=
  cleanChars (lastSlashSplit s).1

/-- Go `path.Base`: strip trailing slashes, keep everything after the final
slash; `"."` for the empty path, `"/"` for an all-slash path. -/
def baseChars (s : List Char) : List Char :=
  if s = [] then ['.']
  else
    if (s.reverse.dropWhile (fun c => decide (c = '/'))).takeWhile
        (fun c => decide (c ≠ '/')) = [] then ['/']
    else ((s.reverse.dropWhile (fun c => decide (c = '/'))).takeWhile
        (fun c => decide (c ≠ '/'))).reverse

/-! ### The `Config` struct and the pure path functions of the module -/

/-- `Config` from the source (the `sync.RWMutex` field guards runtime file
access and carries no data, so it is not part of the state). -/
structure Config where
  programPath : List Char
  programName : List Char
  confName : List Char
  isTemporary : Bool
deriving DecidableEq

/-- `(c *Config) getPath()`: `path.Join(c.programPath, c.programName,
c.confName)`. -/
def Config.getPath (c : Config) : List Char :=
  joinChars [c.programPath, c.programName, c.confName]

/-- `splitPath(fullPath)` from the source: decompose into
`(programPath, programName, confName)` via `path.Dir`/`path.Base`, with the
error set exactly when one of the three results is the empty string. -/
def splitPath (fullPath : List Char) :
    (List Char × List Char × List Char) × Option String :=
  ((dirChars (dirChars fullPath), baseChars (dirChars fullPath),
    baseChars fullPath),
   if dirChars (dirChars fullPath) = [] ∨ baseChars (dirChars fullPath) = [] ∨
       baseChars fullPath = [] then
     some "Could not decompose path."
   else none)

/-- Quick sanity checks that the path embedding matches Go's `path`
package on concrete inputs. -/
example : cleanChars ("a//b/./c/..".data) = "a/b".data := by decide
example : cleanChars ("/../a".data) = "/a".data := by decide
example : cleanChars ("../a".data) = "../a".data := by decide
example : dirChars ("a/b/c".data) = "a/b".data := by decide
example : baseChars ("a/b/".data) = "b".data := by decide
example : joinChars ["".data, ".config".data] = ".config".data := by decide
example : splitPath ("u/p/f".data) = (("u".data, "p".data, "f".data), none) := by
  decide

/-! ### Filesystem and environment model

Every operating-system call made by the source is embedded as an explicit
state transformer over `FS`.  The `…Err` fields are per-path failure
oracles: they stand for environment-caused failures (permissions, disk
errors) of `os.MkdirAll`, `os.Open`, `os.Create`, `io.Copy` and `os.Stat`,
so the theorems can quantify over executions in which any given call fails
or succeeds. -/

/-- I/O error values returned by the modelled system calls. -/
inductive IoErr where
  | notFound
  | permissionDenied
  | other (code : Nat)
deriving DecidableEq

/-- The world the module runs against: environment variables, file
contents, directory permissions, and failure injections for each kind of
system call. -/
structure FS where
  env : List Char → List Char
  file : List Char → Option (List Nat)
  dirPerm : List Char → Option Nat
  statErr : List Char → Option IoErr
  mkdirErr : List Char → Option IoErr
  createErr : List Char → Option IoErr
  openErr : List Char → Option IoErr
  copyErr : List Char → Option IoErr

/-- `os.Stat(p)`: `none` means success.  Fails with an injected error when
one is present, and with not-found when no file carries the path. -/
def FS.stat (fs : FS) (p : List Char) : Option IoErr :=
  match fs.statErr p with
  | some e => some e
  | none => if (fs.file p).isSome then none else some .notFound

/-- `os.MkdirAll(dir, perm)`: succeeds when no failure is injected; a
directory that already exists keeps its permissions, a fresh one records
`perm`. -/
def FS.mkdirAll (fs : FS) (dir : List Char) (perm : Nat) : Except IoErr FS :=
  match fs.mkdirErr dir with
  | some e => .error e
  | none =>
    .ok { fs with
          dirPerm := fun q =>
            if q = dir then some ((fs.dirPerm dir).getD perm)
            else fs.dirPerm q }

/-- `os.Open(p)` for reading: fails with an injected error or when the file
does not exist. -/
def FS.openFile (fs : FS) (p : List Char) : Except IoErr Unit :=
  match fs.openErr p with
  | some e => .error e
  | none => if (fs.file p).isSome then .ok () else .error .notFound

/-- `os.Create(p)`: truncates/creates `p` to empty content. -/
def FS.createFile (fs : FS) (p : List Char) : Except IoErr FS :=
  match fs.createErr p with
  | some e => .error e
  | none =>
    .ok { fs with
          file := fun q => if q = p then some [] else fs.file q }

/-- `io.Copy(dst, src)` on the two open files: writes the current content
of `src` to `dst`. -/
def FS.ioCopy (fs : FS) (dst src : List Char) : Except IoErr FS :=
  match fs.copyErr dst with
  | some e => .error e
  | none =>
    .ok { fs with
          file := fun q => if q = dst then fs.file src else fs.file q }

/-! ### The `Config` methods -/

/-- `(c *Config) Exists()`: `_, err := os.Stat(c.getPath()); return err == nil`. -/
def Config.Exists (c : Config) (fs : FS) : Bool :=
  (fs.stat c.getPath).isNone

/-- `(c *Config) Read()`: `ioutil.ReadFile(c.getPath())` under the handle's
read lock (the lock carries no data in a sequential execution). -/
def Config.Read (c : Config) (fs : FS) : Except IoErr (List Nat) :=
  match fs.openErr c.getPath with
  | some e => .error e
  | none =>
    match fs.file c.getPath with
    | some bs => .ok bs
    | none => .error .notFound

/-- `(c *Config) read(from *Config)`: `MkdirAll(Join(c.programPath,
c.programName), 0700)`, then open the source, create (truncate) the
destination, and stream the bytes across.  Returns the error of the first
failing step together with the filesystem as mutated so far. -/
def Config.read (c src : Config) (fs : FS) : Option IoErr × FS :=
  match fs.mkdirAll (joinChars [c.programPath, c.programName]) 448 with
  | .error e => (some e, fs)
  | .ok fs1 =>
    match fs1.openFile src.getPath with
    | .error e => (some e, fs1)
    | .ok _ =>
      match fs1.createFile c.getPath with
      | .error e => (some e, fs1)
      | .ok fs2 =>
        match fs2.ioCopy c.getPath src.getPath with
        | .error e => (some e, fs2)
        | .ok fs3 => (none, fs3)

/-- `(c *Config) copyConf(programPath, programName, confName)`: builds the
new handle (`isTemporary` exactly when the new root is `/tmp`), runs
`read`, and returns the handle together with `read`'s error — the handle is
returned even when the copy failed. -/
def Config.copyConf (c : Config) (programPath programName confName : List Char)
    (fs : FS) : (Config × Option IoErr) × FS :=
  ((⟨programPath, programName, confName, decide (programPath = "/tmp".data)⟩,
    (Config.read ⟨programPath, programName, confName,
      decide (programPath = "/tmp".data)⟩ c fs).1),
   (Config.read ⟨programPath, programName, confName,
     decide (programPath = "/tmp".data)⟩ c fs).2)

/-- `(c *Config) makeTmp()`: `c.copyConf("/tmp", c.programName, c.confName)`. -/
def Config.makeTmp (c : Config) (fs : FS) : (Config × Option IoErr) × FS :=
  c.copyConf "/tmp".data c.programName c.confName fs

/-- Errors surfaced by the locator: `notExist` models
`errors.New(fmt.Sprint("Config does not exist in", conf.getPath()))` and
`io` wraps an I/O error bubbled out of a copy. -/
inductive GetErr where
  | notExist (p : List Char)
  | io (e : IoErr)
deriving DecidableEq

/-- `findConfig(configPath, programName, confName)`: builds a candidate
handle — with `isTemporary` hard-coded to `true`, exactly as in the source
— and returns it when it exists. -/
def findConfig (configPath programName confName : List Char) (fs : FS) :
    Except GetErr Config :=
  if Config.Exists ⟨configPath, programName, confName, true⟩ fs then
    .ok ⟨configPath, programName, confName, true⟩
  else
    .error (.notExist (Config.getPath ⟨configPath, programName, confName, true⟩))

/-- `getSysConfig(programName, confName)`: `findConfig("/etc", …)`. -/
def getSysConfig (programName confName : List Char) (fs : FS) :
    Except GetErr Config :=
  findConfig "/etc".data programName confName fs

/-- `copySysConfig(programPath, programName, confName)`: resolve the system
handle and copy it to the given root.  On a copy failure Go returns both
the (non-nil) new handle and the error, which the model keeps. -/
def copySysConfig (programPath programName confName : List Char) (fs : FS) :
    (Option Config × Option GetErr) × FS :=
  match getSysConfig programName confName fs with
  | .error e => ((none, some e), fs)
  | .ok sysConf =>
    ((some (sysConf.copyConf programPath programName confName fs).1.1,
      ((sysConf.copyConf programPath programName confName fs).1.2).map GetErr.io),
     (sysConf.copyConf programPath programName confName fs).2)

/-- The user root resolved at the top of `Get`: `$XDG_CONFIG_HOME`, or
`path.Join($HOME, ".config")` when that is empty. -/
def resolveUserRoot (fs : FS) : List Char :=
  if fs.env "XDG_CONFIG_HOME".data = [] then
    joinChars [fs.env "HOME".data, ".config".data]
  else fs.env "XDG_CONFIG_HOME".data

/-- The tail of `Get` (source lines after the user branch): fetch the
system config, and try to copy it to `/tmp`; the system handle itself is
returned when the `/tmp` copy fails. -/
def getFallback (programName confName : List Char) (fs : FS) :
    (Option Config × Option GetErr) × FS :=
  match getSysConfig programName confName fs with
  | .error e => ((none, some e), fs)
  | .ok sysConf =>
    match sysConf.makeTmp fs with
    | ((tmpConf, none), fs1) => ((some tmpConf, none), fs1)
    | ((_, some _), fs1) => ((some sysConf, none), fs1)

/-- `Get(programName, confName)`: the full resolution cascade of the
source.  When the resolved user root is not the sentinel `".config"`
(which arises exactly when both environment variables are empty), a user
config is looked up and, failing that, materialised by copying the system
config; any failure of that copy falls through to the system/temporary
resolution. -/
def Get (programName confName : List Char) (fs : FS) :
    (Option Config × Option GetErr) × FS :=
  if resolveUserRoot fs = ".config".data then getFallback programName confName fs
  else
    match findConfig (resolveUserRoot fs) programName confName fs with
    | .ok conf => ((some conf, none), fs)
    | .error _ =>
      match copySysConfig (resolveUserRoot fs) programName confName fs with
      | ((userConf, none), fs1) => ((userConf, none), fs1)
      | ((_, some _), fs1) => getFallback programName confName fs1

/-! ### The watcher loop body -/

/-- inotify mask constants used by the watcher. -/
def IN_MODIFY : Nat := 2

/-- inotify `IN_DELETE_SELF`. -/
def IN_DELETE_SELF : Nat := 1024

/-- inotify `IN_MOVE_SELF`. -/
def IN_MOVE_SELF : Nat := 2048

/-- A value published by the watcher goroutine: bytes on the content
channel or an error on the error channel. -/
inductive Publication where
  | content (bs : List Nat)
  | failure (e : IoErr)
deriving DecidableEq

/-- One iteration of the `Listen` goroutine on a filesystem event: the
`switch ev.Mask` admits exactly `IN_MODIFY`, `IN_MOVE_SELF` and
`IN_DELETE_SELF` (the default branch `continue`s, publishing nothing);
a qualifying event re-reads the file after the settle delay and publishes
the bytes on success or the error on failure. -/
def handleEvent (c : Config) (fs : FS) (mask : Nat) : Option Publication :=
  if mask = IN_MODIFY ∨ mask = IN_MOVE_SELF ∨ mask = IN_DELETE_SELF then
    match c.Read fs with
    | .ok bs => some (.content bs)
    | .error e => some (.failure e)
  else none

/-! ### Concrete worlds used as test fixtures

Each fixture is a closed `FS` value standing for one concrete environment
and disk state; the per-claim theorems evaluate the embedded operations on
them. -/

/-- World for C1: both environment variables empty, a system configuration
present at `/etc/prog/conf`, and the `/tmp` copy failing (creating
`/tmp/prog` is denied). -/
def fsC1 : FS :=
  { env := fun _ => []
    file := fun p => if p = "/etc/prog/conf".data then some [7] else none
    dirPerm := fun _ => none
    statErr := fun _ => none
    mkdirErr := fun p =>
      if p = "/tmp/prog".data then some .permissionDenied else none
    createErr := fun _ => none
    openErr := fun _ => none
    copyErr := fun _ => none }

/-- World for C2: `$XDG_CONFIG_HOME` is `/cfg` and the user configuration
already exists at `/cfg/prog/conf`. -/
def fsC2 : FS :=
  { env := fun k => if k = "XDG_CONFIG_HOME".data then "/cfg".data else []
    file := fun p => if p = "/cfg/prog/conf".data then some [1] else none
    dirPerm := fun _ => none
    statErr := fun _ => none
    mkdirErr := fun _ => none
    createErr := fun _ => none
    openErr := fun _ => none
    copyErr := fun _ => none }

/-- World for the C5 witness: no environment variables, no files at all. -/
def fsC5 : FS :=
  { env := fun _ => []
    file := fun _ => none
    dirPerm := fun _ => none
    statErr := fun _ => none
    mkdirErr := fun _ => none
    createErr := fun _ => none
    openErr := fun _ => none
    copyErr := fun _ => none }

/-- World for C6: `$XDG_CONFIG_HOME` is `/u`, no user configuration, a
system configuration at `/etc/p/c`; copying into the user root fails at
`os.Create` and the later `/tmp` copy fails at `os.MkdirAll`. -/
def fsC6 : FS :=
  { env := fun k => if k = "XDG_CONFIG_HOME".data then "/u".data else []
    file := fun p => if p = "/etc/p/c".data then some [1] else none
    dirPerm := fun _ => none
    statErr := fun _ => none
    mkdirErr := fun p => if p = "/tmp/p".data then some (.other 1) else none
    createErr := fun p => if p = "/u/p/c".data then some (.other 0) else none
    openErr := fun _ => none
    copyErr := fun _ => none }

/-- Handle used by the C7 witness. -/
def confC7 : Config := ⟨"/etc".data, "p".data, "c".data, false⟩

/-- World for the C7 witness: the watched file holds the bytes `[5]`. -/
def fsC7 : FS :=
  { env := fun _ => []
    file := fun p => if p = "/etc/p/c".data then some [5] else none
    dirPerm := fun _ => none
    statErr := fun _ => none
    mkdirErr := fun _ => none
    createErr := fun _ => none
    openErr := fun _ => none
    copyErr := fun _ => none }

/-- Handle used by the C8 witness. -/
def confC8 : Config := ⟨"/etc".data, "p".data, "c".data, false⟩

/-- World for the C8 witness: stat on the handle's path fails with
permission denied even though the file has contents. -/
def fsC8 : FS :=
  { env := fun _ => []
    file := fun p => if p = "/etc/p/c".data then some [9] else none
    dirPerm := fun _ => none
    statErr := fun p =>
      if p = "/etc/p/c".data then some .permissionDenied else none
    mkdirErr := fun _ => none
    createErr := fun _ => none
    openErr := fun _ => none
    copyErr := fun _ => none }

/-- Source handle used by the C9 witness. -/
def confC9 : Config := ⟨"/etc".data, "p".data, "c".data, true⟩

/-- World for the C9 witness: the source file `/etc/p/c` holds `[3]` and
every operation succeeds. -/
def fsC9 : FS :=
  { env := fun _ => []
    file := fun p => if p = "/etc/p/c".data then some [3] else none
    dirPerm := fun _ => none
    statErr := fun _ => none
    mkdirErr := fun _ => none
    createErr := fun _ => none
    openErr := fun _ => none
    copyErr := fun _ => none }

/-- Source handle used by the concrete part of C10. -/
def confC10 : Config := ⟨"/etc".data, "p".data, "c".data, true⟩

/-- World for the concrete part of C10: completely empty, so the copy's
`os.Open` of the source fails after `os.MkdirAll` has already created the
destination directory. -/
def fsC10 : FS :=
  { env := fun _ => []
    file := fun _ => none
    dirPerm := fun _ => none
    statErr := fun _ => none
    mkdirErr := fun _ => none
    createErr := fun _ => none
    openErr := fun _ => none
    copyErr := fun _ => none }

/-! ### Lemmas about the path functions -/

theorem splitSlash_noSlash {a : List Char} (h : '/' ∉ a) : splitSlash a = [a] := by
  induction a with
  | nil => rfl
  | cons c rest ih =>
    have hc : ¬ c = '/' := fun hc => h (hc ▸ List.mem_cons_self c rest)
    have hr : '/' ∉ rest := fun hm => h (List.mem_cons_of_mem c hm)
    simp [splitSlash, hc, ih hr]

theorem splitSlash_append {a : List Char} (h : '/' ∉ a) (b : List Char) :
    splitSlash (a ++ '/' :: b) = a :: splitSlash b := by
  induction a with
  | nil => simp [splitSlash]
  | cons c rest ih =>
    have hc : ¬ c = '/' := fun hc => h (hc ▸ List.mem_cons_self c rest)
    have hr : '/' ∉ rest := fun hm => h (List.mem_cons_of_mem c hm)
    simp [splitSlash, hc, ih hr]

theorem intercalateSlash_cons {e e2 : List Char} {es : List (List Char)} :
    intercalateSlash (e :: e2 :: es) = e ++ '/' :: intercalateSlash (e2 :: es) :=
  rfl

theorem splitSlash_intercalate_append {L : List (List Char)} (hL : L ≠ [])
    (h : ∀ e ∈ L, '/' ∉ e) (b : List Char) :
    splitSlash (intercalateSlash L ++ '/' :: b) = L ++ splitSlash b := by
  induction L with
  | nil => exact absurd rfl hL
  | cons e es ih =>
    cases es with
    | nil =>
      simpa [intercalateSlash] using
        splitSlash_append (h e (List.mem_cons_self e [])) b
    | cons e2 es2 =>
      rw [intercalateSlash_cons, List.append_assoc, List.cons_append,
        splitSlash_append (h e (List.mem_cons_self e (e2 :: es2))),
        ih (by simp) (fun x hx => h x (List.mem_cons_of_mem e hx))]
      rfl

theorem splitSlash_intercalate {L : List (List Char)} (hL : L ≠ [])
    (h : ∀ e ∈ L, '/' ∉ e) :
    splitSlash (intercalateSlash L) = L := by
  induction L with
  | nil => exact absurd rfl hL
  | cons e es ih =>
    cases es with
    | nil =>
      simpa [intercalateSlash] using
        splitSlash_noSlash (h e (List.mem_cons_self e []))
    | cons e2 es2 =>
      rw [intercalateSlash_cons,
        splitSlash_append (h e (List.mem_cons_self e (e2 :: es2))),
        ih (by simp) (fun x hx => h x (List.mem_cons_of_mem e hx))]

theorem resolveDots_push {rooted : Bool} {es : List (List Char)}
    (h : ∀ e ∈ es, e ≠ ['.', '.']) :
    ∀ acc, resolveDots rooted acc es = acc.reverse ++ es := by
  induction es with
  | nil => intro acc; simp [resolveDots]
  | cons e es ih =>
    intro acc
    have he : ¬ e = ['.', '.'] := h e (List.mem_cons_self e es)
    rw [show resolveDots rooted acc (e :: es) =
        resolveDots rooted (e :: acc) es by simp [resolveDots, he]]
    rw [ih (fun x hx => h x (List.mem_cons_of_mem e hx))]
    simp

theorem resolveDots_head {r : List Char} {rest : List (List Char)}
    (h : ∀ e ∈ rest, e ≠ ['.', '.']) :
    resolveDots false [] (r :: rest) = r :: rest := by
  by_cases hr : r = ['.', '.']
  · subst hr
    rw [show resolveDots false [] (['.', '.'] :: rest) =
        resolveDots false [['.', '.']] rest by simp [resolveDots]]
    simpa using resolveDots_push h [['.', '.']]
  · rw [show resolveDots false [] (r :: rest) =
        resolveDots false [r] rest by simp [resolveDots, hr]]
    simpa using resolveDots_push h [r]

theorem takeWhile_neSlash {g : List Char} (h : '/' ∉ g) :
    g.takeWhile (fun c => decide (c ≠ '/')) = g := by
  induction g with
  | nil => rfl
  | cons c rest ih =>
    have hc : c ≠ '/' := fun hc => h (hc ▸ List.mem_cons_self c rest)
    rw [List.takeWhile_cons, if_pos (decide_eq_true hc),
      ih (fun hm => h (List.mem_cons_of_mem c hm))]

theorem takeWhile_neSlash_append {g : List Char} (h : '/' ∉ g)
    (rest : List Char) :
    (g ++ '/' :: rest).takeWhile (fun c => decide (c ≠ '/')) = g := by
  induction g with
  | nil => rw [List.nil_append, List.takeWhile_cons, if_neg (by decide)]
  | cons c t ih =>
    have hc : c ≠ '/' := fun hc => h (hc ▸ List.mem_cons_self c t)
    rw [List.cons_append, List.takeWhile_cons, if_pos (decide_eq_true hc),
      ih (fun hm => h (List.mem_cons_of_mem c hm))]

theorem dropWhile_neSlash {g : List Char} (h : '/' ∉ g) :
    g.dropWhile (fun c => decide (c ≠ '/')) = [] := by
  induction g with
  | nil => rfl
  | cons c rest ih =>
    have hc : c ≠ '/' := fun hc => h (hc ▸ List.mem_cons_self c rest)
    rw [List.dropWhile_cons, if_pos (decide_eq_true hc),
      ih (fun hm => h (List.mem_cons_of_mem c hm))]

theorem dropWhile_neSlash_append {g : List Char} (h : '/' ∉ g)
    (rest : List Char) :
    (g ++ '/' :: rest).dropWhile (fun c => decide (c ≠ '/')) = '/' :: rest := by
  induction g with
  | nil => rw [List.nil_append, List.dropWhile_cons, if_neg (by decide)]
  | cons c t ih =>
    have hc : c ≠ '/' := fun hc => h (hc ▸ List.mem_cons_self c t)
    rw [List.cons_append, List.dropWhile_cons, if_pos (decide_eq_true hc),
      ih (fun hm => h (List.mem_cons_of_mem c hm))]

theorem dropWhile_eqSlash_self {g : List Char} (hg : g ≠ []) (h : '/' ∉ g) :
    g.dropWhile (fun c => decide (c = '/')) = g := by
  cases g with
  | nil => exact absurd rfl hg
  | cons c t =>
    have hc : ¬ c = '/' := fun hc => h (hc ▸ List.mem_cons_self c t)
    simp [List.dropWhile_cons, hc]

theorem dropWhile_eqSlash_append {g : List Char} (hg : g ≠ []) (h : '/' ∉ g)
    (rest : List Char) :
    (g ++ rest).dropWhile (fun c => decide (c = '/')) = g ++ rest := by
  cases g with
  | nil => exact absurd rfl hg
  | cons c t =>
    have hc : ¬ c = '/' := fun hc => h (hc ▸ List.mem_cons_self c t)
    simp [List.dropWhile_cons, hc]

theorem baseChars_append {x f : List Char} (hf : f ≠ []) (hfs : '/' ∉ f) :
    baseChars (x ++ '/' :: f) = f := by
  have hne : x ++ '/' :: f ≠ [] := by simp
  have hrev : (x ++ '/' :: f).reverse = f.reverse ++ '/' :: x.reverse := by
    simp
  have hfr : f.reverse ≠ [] := by simpa using hf
  have hfrs : '/' ∉ f.reverse := by simpa using hfs
  unfold baseChars
  rw [if_neg hne, hrev, dropWhile_eqSlash_append hfr hfrs,
    takeWhile_neSlash_append hfrs, if_neg hfr, List.reverse_reverse]

theorem baseChars_noSlash {f : List Char} (hf : f ≠ []) (hfs : '/' ∉ f) :
    baseChars f = f := by
  have hfr : f.reverse ≠ [] := by simpa using hf
  have hfrs : '/' ∉ f.reverse := by simpa using hfs
  unfold baseChars
  rw [if_neg hf, dropWhile_eqSlash_self hfr hfrs, takeWhile_neSlash hfrs,
    if_neg hfr, List.reverse_reverse]

theorem lastSlashSplit_append {x f : List Char} (hfs : '/' ∉ f) :
    (lastSlashSplit (x ++ '/' :: f)).1 = x ++ ['/'] := by
  have hfrs : '/' ∉ f.reverse := by simpa using hfs
  show ((x ++ '/' :: f).reverse.dropWhile (fun c => decide (c ≠ '/'))).reverse =
    x ++ ['/']
  rw [show (x ++ '/' :: f).reverse = f.reverse ++ '/' :: x.reverse by simp,
    dropWhile_neSlash_append hfrs]
  simp

theorem lastSlashSplit_noSlash {f : List Char} (hfs : '/' ∉ f) :
    (lastSlashSplit f).1 = [] := by
  have hfrs : '/' ∉ f.reverse := by simpa using hfs
  show (f.reverse.dropWhile (fun c => decide (c ≠ '/'))).reverse = []
  rw [dropWhile_neSlash hfrs]
  rfl

theorem isRooted_append_false {e : List Char} (he : e ≠ []) (hes : '/' ∉ e)
    (t : List Char) : isRooted (e ++ t) = false := by
  cases e with
  | nil => exact absurd rfl he
  | cons c r =>
    have hc : ¬ c = '/' := fun hc => hes (hc ▸ List.mem_cons_self c r)
    simp [isRooted, hc]

theorem isRooted_intercalate_append {e : List Char} {es : List (List Char)}
    (he : e ≠ []) (hes : '/' ∉ e) (t : List Char) :
    isRooted (intercalateSlash (e :: es) ++ t) = false := by
  cases es with
  | nil => exact isRooted_append_false he hes t
  | cons e2 es2 =>
    rw [intercalateSlash_cons, List.append_assoc]
    exact isRooted_append_false he hes _

theorem isRooted_intercalate {e : List Char} {es : List (List Char)}
    (he : e ≠ []) (hes : '/' ∉ e) :
    isRooted (intercalateSlash (e :: es)) = false := by
  rw [show intercalateSlash (e :: es) = intercalateSlash (e :: es) ++ [] by simp]
  exact isRooted_intercalate_append he hes []

theorem intercalateSlash_ne_nil {L : List (List Char)} (hL : L ≠ [])
    (h : ∀ e ∈ L, e ≠ []) : intercalateSlash L ≠ [] := by
  cases L with
  | nil => exact absurd rfl hL
  | cons e es =>
    cases es with
    | nil => exact h e (List.mem_cons_self e [])
    | cons e2 es2 => rw [intercalateSlash_cons]; simp

theorem clean_elems {L : List (List Char)} (hL : L ≠ [])
    (h1 : ∀ e ∈ L, e ≠ [] ∧ '/' ∉ e ∧ e ≠ ['.'])
    (h2 : ∀ e ∈ L.tail, e ≠ ['.', '.']) :
    cleanChars (intercalateSlash L) = intercalateSlash L := by
  obtain ⟨e, es, rfl⟩ : ∃ e es, L = e :: es := by
    cases L with
    | nil => exact absurd rfl hL
    | cons e es => exact ⟨e, es, rfl⟩
  have he := h1 e (List.mem_cons_self e es)
  have hne : intercalateSlash (e :: es) ≠ [] :=
    intercalateSlash_ne_nil hL (fun x hx => (h1 x hx).1)
  have hroot : isRooted (intercalateSlash (e :: es)) = false :=
    isRooted_intercalate he.1 he.2.1
  have hsplit : splitSlash (intercalateSlash (e :: es)) = e :: es :=
    splitSlash_intercalate hL (fun x hx => (h1 x hx).2.1)
  have hfilter :
      (e :: es).filter (fun x => decide (x ≠ [] ∧ x ≠ ['.'])) = e :: es := by
    rw [List.filter_eq_self]
    intro a ha
    have hmem := h1 a ha
    simp [hmem.1, hmem.2.2]
  have hres : resolveDots false [] (e :: es) = e :: es :=
    resolveDots_head (fun x hx => (h2 x hx))
  unfold cleanChars
  rw [if_neg hne, hroot, hsplit, hfilter, hres,
    if_neg (by simp : ¬(e :: es : List (List Char)) = [])]
  simp

theorem resolveDots_ne_nil {rooted : Bool} (es : List (List Char)) :
    ∀ acc, (∀ x ∈ acc, x ≠ []) → (∀ e ∈ es, e ≠ []) →
      ∀ x ∈ resolveDots rooted acc es, x ≠ [] := by
  induction es with
  | nil =>
    intro acc hacc _ x hx
    rw [show resolveDots rooted acc [] = acc.reverse from rfl] at hx
    exact hacc x (by simpa using hx)
  | cons e es ih =>
    intro acc hacc hes x hx
    have hes' : ∀ y ∈ es, y ≠ [] := fun y hy => hes y (List.mem_cons_of_mem e hy)
    by_cases he : e = ['.', '.']
    · subst he
      cases acc with
      | nil =>
        cases rooted with
        | true =>
          rw [show resolveDots true [] (['.', '.'] :: es) =
              resolveDots true [] es by simp [resolveDots]] at hx
          exact ih [] (by simp) hes' x hx
        | false =>
          rw [show resolveDots false [] (['.', '.'] :: es) =
              resolveDots false [['.', '.']] es by simp [resolveDots]] at hx
          refine ih [['.', '.']] ?_ hes' x hx
          intro y hy
          rcases List.mem_cons.mp hy with rfl | hy
          · decide
          · cases hy
      | cons a as =>
        by_cases ha : a = ['.', '.']
        · rw [show resolveDots rooted (a :: as) (['.', '.'] :: es) =
              resolveDots rooted (['.', '.'] :: a :: as) es by
              simp [resolveDots, ha]] at hx
          refine ih _ ?_ hes' x hx
          intro y hy
          rcases List.mem_cons.mp hy with rfl | hy
          · decide
          · exact hacc y hy
        · rw [show resolveDots rooted (a :: as) (['.', '.'] :: es) =
              resolveDots rooted as es by simp [resolveDots, ha]] at hx
          exact ih as (fun y hy => hacc y (List.mem_cons_of_mem a hy)) hes' x hx
    · rw [show resolveDots rooted acc (e :: es) =
          resolveDots rooted (e :: acc) es by simp [resolveDots, he]] at hx
      refine ih _ ?_ hes' x hx
      intro y hy
      rcases List.mem_cons.mp hy with rfl | hy
      · exact hes y (List.mem_cons_self y es)
      · exact hacc y hy

theorem cleanChars_ne_nil (s : List Char) : cleanChars s ≠ [] := by
  unfold cleanChars
  by_cases hs : s = []
  · simp [hs]
  · rw [if_neg hs]
    cases hroot : isRooted s with
    | true =>
      by_cases hres : resolveDots true []
          ((splitSlash s).filter (fun e => decide (e ≠ [] ∧ e ≠ ['.']))) = []
      · rw [if_pos hres]; simp
      · rw [if_neg hres]; simp
    | false =>
      by_cases hres : resolveDots false []
          ((splitSlash s).filter (fun e => decide (e ≠ [] ∧ e ≠ ['.']))) = []
      · rw [if_pos hres]; simp
      · rw [if_neg hres]
        simp only [Bool.false_eq_true, if_false]
        apply intercalateSlash_ne_nil hres
        intro x hx
        refine resolveDots_ne_nil _ [] (by simp) ?_ x hx
        intro e hef
        have hmem := List.mem_filter.mp hef
        exact (of_decide_eq_true hmem.2).1

theorem baseChars_ne_nil (s : List Char) : baseChars s ≠ [] := by
  unfold baseChars
  by_cases hs : s = []
  · simp [hs]
  · rw [if_neg hs]
    by_cases h2 : (s.reverse.dropWhile (fun c => decide (c = '/'))).takeWhile
        (fun c => decide (c ≠ '/')) = []
    · rw [if_pos h2]; simp
    · rw [if_neg h2]; simpa using h2

theorem getPath_eq (r p f : List Char) (b : Bool) (hr : r ≠ []) :
    Config.getPath ⟨r, p, f, b⟩ = cleanChars (intercalateSlash [r, p, f]) := by
  unfold Config.getPath joinChars
  have hdrop : [r, p, f].dropWhile (fun e => decide (e = [])) = [r, p, f] := by
    rw [List.dropWhile_cons, if_neg (by simpa using hr)]
  rw [hdrop, if_neg (by simp)]

theorem clean_elems_trailing {L : List (List Char)} (hL : L ≠ [])
    (h1 : ∀ e ∈ L, e ≠ [] ∧ '/' ∉ e ∧ e ≠ ['.'])
    (h2 : ∀ e ∈ L.tail, e ≠ ['.', '.']) :
    cleanChars (intercalateSlash L ++ ['/']) = intercalateSlash L := by
  obtain ⟨e, es, rfl⟩ : ∃ e es, L = e :: es := by
    cases L with
    | nil => exact absurd rfl hL
    | cons e es => exact ⟨e, es, rfl⟩
  have he := h1 e (List.mem_cons_self e es)
  have hne : intercalateSlash (e :: es) ++ ['/'] ≠ [] := by simp
  have hroot : isRooted (intercalateSlash (e :: es) ++ ['/']) = false :=
    isRooted_intercalate_append he.1 he.2.1 ['/']
  have hsplit : splitSlash (intercalateSlash (e :: es) ++ ['/']) =
      (e :: es) ++ [[]] :=
    splitSlash_intercalate_append hL (fun x hx => (h1 x hx).2.1) []
  have hfilter : ((e :: es) ++ [[]]).filter
      (fun x => decide (x ≠ [] ∧ x ≠ ['.'])) = e :: es := by
    rw [List.filter_append]
    rw [List.filter_eq_self.mpr (by
      intro a ha
      have hmem := h1 a ha
      simp [hmem.1, hmem.2.2])]
    simp
  have hres : resolveDots false [] (e :: es) = e :: es :=
    resolveDots_head (fun x hx => (h2 x hx))
  unfold cleanChars
  rw [if_neg hne, hroot, hsplit, hfilter, hres,
    if_neg (by simp : ¬(e :: es : List (List Char)) = [])]
  simp

theorem clean_elems_dot {L : List (List Char)} (hL : L ≠ [])
    (h1 : ∀ e ∈ L, e ≠ [] ∧ '/' ∉ e ∧ e ≠ ['.'])
    (h2 : ∀ e ∈ L, e ≠ ['.', '.']) :
    cleanChars (intercalateSlash (['.'] :: L)) = intercalateSlash L := by
  obtain ⟨e, es, rfl⟩ : ∃ e es, L = e :: es := by
    cases L with
    | nil => exact absurd rfl hL
    | cons e es => exact ⟨e, es, rfl⟩
  have hne : intercalateSlash (['.'] :: e :: es) ≠ [] := by
    rw [intercalateSlash_cons]; simp
  have hroot : isRooted (intercalateSlash (['.'] :: e :: es)) = false :=
    isRooted_intercalate (by simp) (by decide)
  have hsplit : splitSlash (intercalateSlash (['.'] :: e :: es)) =
      ['.'] :: e :: es := by
    refine splitSlash_intercalate (by simp) ?_
    intro x hx
    rcases List.mem_cons.mp hx with rfl | hx
    · decide
    · exact (h1 x hx).2.1
  have hfilter : (['.'] :: e :: es).filter
      (fun x => decide (x ≠ [] ∧ x ≠ ['.'])) = e :: es := by
    rw [List.filter_cons, if_neg (by decide)]
    rw [List.filter_eq_self]
    intro a ha
    have hmem := h1 a ha
    simp [hmem.1, hmem.2.2]
  have hres : resolveDots false [] (e :: es) = e :: es :=
    resolveDots_head (fun x hx => h2 x (List.mem_cons_of_mem e hx))
  unfold cleanChars
  rw [if_neg hne, hroot, hsplit, hfilter, hres,
    if_neg (by simp : ¬(e :: es : List (List Char)) = [])]
  simp

/-! ### Claim C3: round-trip of `splitPath` after `getPath` -/

/-- C3 (counterexample): the claim "for all strings root, program, file,
each a non-empty single path component, splitPath(buildPath(root, program,
file)) returns exactly (root, program, file) with no error" fails at the
concrete components ("a", "..", "b"): `..` is a non-empty single path
component (it contains no slash), yet `path.Join` cleans `a/../b` to `b`,
and `splitPath "b"` returns `(".", ".", "b")`. -/
theorem c3_roundtrip_counterexample :
    splitPath (Config.getPath ⟨"a".data, "..".data, "b".data, false⟩) =
      ((".".data, ".".data, "b".data), none) ∧
    splitPath (Config.getPath ⟨"a".data, "..".data, "b".data, false⟩) ≠
      (("a".data, "..".data, "b".data), none) := by
  constructor
  · decide
  · decide

/-- C3 (amended): for all root, program and file components that are
non-empty, contain no slash, and — for program and file — are neither `.`
nor `..`, `splitPath` of the path built by `getPath` returns exactly
`(root, program, file)` with no error.  (The root may still be `.` or
`..`: a leading `.` is dropped by `Clean` and reconstructed by `path.Dir`,
and a leading `..` survives `Clean` on a relative path.) -/
theorem c3_roundtrip_amended (r p f : List Char) (b : Bool)
    (hr0 : r ≠ []) (hr1 : '/' ∉ r)
    (hp0 : p ≠ []) (hp1 : '/' ∉ p) (hp2 : p ≠ ['.']) (hp3 : p ≠ ['.', '.'])
    (hf0 : f ≠ []) (hf1 : '/' ∉ f) (hf2 : f ≠ ['.']) (hf3 : f ≠ ['.', '.']) :
    splitPath (Config.getPath ⟨r, p, f, b⟩) = ((r, p, f), none) := by
  have hpf : ∀ e ∈ [p, f], e ≠ [] ∧ '/' ∉ e ∧ e ≠ ['.'] := by
    intro e he
    rcases List.mem_cons.mp he with rfl | he
    · exact ⟨hp0, hp1, hp2⟩
    · rcases List.mem_cons.mp he with rfl | he
      · exact ⟨hf0, hf1, hf2⟩
      · cases he
  have hpf2 : ∀ e ∈ [p, f], e ≠ ['.', '.'] := by
    intro e he
    rcases List.mem_cons.mp he with rfl | he
    · exact hp3
    · rcases List.mem_cons.mp he with rfl | he
      · exact hf3
      · cases he
  by_cases hr2 : r = ['.']
  · -- root "." : the built path cleans to p/f and Dir reconstructs ".".
    subst hr2
    have hfull : Config.getPath ⟨['.'], p, f, b⟩ = p ++ '/' :: f := by
      rw [getPath_eq _ _ _ _ (by simp)]
      exact clean_elems_dot (by simp) hpf hpf2
    rw [hfull]
    unfold splitPath
    have hbase : baseChars (p ++ '/' :: f) = f := baseChars_append hf0 hf1
    have hdir : dirChars (p ++ '/' :: f) = p := by
      unfold dirChars
      rw [lastSlashSplit_append hf1]
      exact clean_elems_trailing (L := [p]) (by simp)
        (by intro e he; rcases List.mem_cons.mp he with rfl | he
            · exact ⟨hp0, hp1, hp2⟩
            · cases he)
        (by intro e he; cases he)
    have hdir2 : dirChars p = ['.'] := by
      unfold dirChars
      rw [lastSlashSplit_noSlash hp1]
      rfl
    have hbase2 : baseChars p = p := baseChars_noSlash hp0 hp1
    rw [hdir, hdir2, hbase2, hbase, if_neg (by simp [hp0, hf0])]
  · -- regular or ".." root: the built path is untouched by Clean.
    have hrpf : ∀ e ∈ [r, p, f], e ≠ [] ∧ '/' ∉ e ∧ e ≠ ['.'] := by
      intro e he
      rcases List.mem_cons.mp he with rfl | he
      · exact ⟨hr0, hr1, hr2⟩
      · exact hpf e he
    have hfull : Config.getPath ⟨r, p, f, b⟩ = r ++ '/' :: (p ++ '/' :: f) := by
      rw [getPath_eq _ _ _ _ hr0]
      exact clean_elems (by simp) hrpf hpf2
    rw [hfull]
    unfold splitPath
    have hassoc : r ++ '/' :: (p ++ '/' :: f) = (r ++ '/' :: p) ++ '/' :: f := by
      simp
    have hbase : baseChars (r ++ '/' :: (p ++ '/' :: f)) = f := by
      rw [hassoc]; exact baseChars_append hf0 hf1
    have hrp : ∀ e ∈ [r, p], e ≠ [] ∧ '/' ∉ e ∧ e ≠ ['.'] := by
      intro e he
      rcases List.mem_cons.mp he with rfl | he
      · exact ⟨hr0, hr1, hr2⟩
      · rcases List.mem_cons.mp he with rfl | he
        · exact ⟨hp0, hp1, hp2⟩
        · cases he
    have hdir : dirChars (r ++ '/' :: (p ++ '/' :: f)) = r ++ '/' :: p := by
      unfold dirChars
      rw [hassoc, lastSlashSplit_append hf1]
      exact clean_elems_trailing (L := [r, p]) (by simp) hrp
        (by intro e he; rcases List.mem_cons.mp he with rfl | he
            · exact hp3
            · cases he)
    have hbase2 : baseChars (r ++ '/' :: p) = p := baseChars_append hp0 hp1
    have hdir2 : dirChars (r ++ '/' :: p) = r := by
      unfold dirChars
      rw [lastSlashSplit_append hp1]
      exact clean_elems_trailing (L := [r]) (by simp)
        (by intro e he; rcases List.mem_cons.mp he with rfl | he
            · exact ⟨hr0, hr1, hr2⟩
            · cases he)
        (by intro e he; cases he)
    rw [hdir, hdir2, hbase2, hbase, if_neg (by simp [hr0, hp0, hf0])]

/-- C3 (witness): the amended round-trip evaluated at the concrete
components ("usr", "prog", "conf"). -/
theorem c3_roundtrip_amended_witness :
    ("usr".data ≠ [] ∧ '/' ∉ "usr".data ∧
     "prog".data ≠ [] ∧ '/' ∉ "prog".data ∧
     "conf".data ≠ [] ∧ '/' ∉ "conf".data) ∧
    splitPath (Config.getPath ⟨"usr".data, "prog".data, "conf".data, false⟩) =
      (("usr".data, "prog".data, "conf".data), none) :=
  ⟨by decide,
   c3_roundtrip_amended "usr".data "prog".data "conf".data false
     (by decide) (by decide) (by decide) (by decide) (by decide) (by decide)
     (by decide) (by decide) (by decide) (by decide)⟩

/-! ### Claim C4: `splitPath` on short paths -/

/-- C4 (counterexample): the claim "for every input path with fewer than
three path segments splitPath returns a DecompositionError" fails at the
one-segment path "x": `path.Dir` and `path.Base` fill the missing
components with "." and the error is `none`. -/
theorem c4_splitPath_counterexample :
    splitPath ("x".data) = ((".".data, ".".data, "x".data), none) := by decide

/-- C4 (amended): `splitPath` never returns a DecompositionError on any
input: `path.Dir` (whose result passes through `Clean`) and `path.Base`
never produce an empty string, so the emptiness check guarding the error
is dead code and short paths are padded with "." components instead of
being rejected. -/
theorem c4_splitPath_never_errors (s : List Char) : (splitPath s).2 = none := by
  show (if dirChars (dirChars s) = [] ∨ baseChars (dirChars s) = [] ∨
      baseChars s = [] then some "Could not decompose path." else none) = none
  rw [if_neg]
  push_neg
  exact ⟨cleanChars_ne_nil _, baseChars_ne_nil _, baseChars_ne_nil _⟩

/-! ### Claim C1: system fallback when no user root is resolvable -/

/-- C1 (failing input): with both environment variables empty, a system
configuration at `/etc/prog/conf`, and the `/tmp` copy failing, `Get`
succeeds and returns the system handle itself — but that handle's
`isTemporary` field is `true` (hard-coded by `findConfig`), although no
writable temporary copy was created.  The claim's "isTemporary is true if
and only if the temporary copy was created" fails in the right-to-left
direction; the spec is the evident intent (a handle in `/etc` is not
temporary) and the hard-coded `true` in `findConfig` is the slip. -/
theorem c1_system_fallback_marked_temporary :
    (Get "prog".data "conf".data fsC1).1 =
      (some ⟨"/etc".data, "prog".data, "conf".data, true⟩, none) ∧
    (Config.makeTmp ⟨"/etc".data, "prog".data, "conf".data, true⟩ fsC1).1.2 =
      some .permissionDenied := by
  constructor
  · decide
  · decide

/-! ### Claim C2: pre-existing user configuration -/

/-- C2 (failing input): with `$XDG_CONFIG_HOME = /cfg` and a file at
`/cfg/prog/conf`, `Get` returns a handle whose full path is exactly
`/cfg/prog/conf` — but its `isTemporary` field is `true`, not `false` as
the claim states, because `findConfig` constructs every candidate handle
with `isTemporary` hard-coded to `true`. -/
theorem c2_user_config_marked_temporary :
    (Get "prog".data "conf".data fsC2).1 =
      (some ⟨"/cfg".data, "prog".data, "conf".data, true⟩, none) ∧
    Config.getPath ⟨"/cfg".data, "prog".data, "conf".data, true⟩ =
      "/cfg/prog/conf".data := by
  constructor
  · decide
  · decide

/-! ### Claim C5: resolution error when nothing is available -/

/-- C5: when both environment variables are empty (so the resolved user
root is the sentinel `".config"`) and no file exists at
`/etc/<program>/<file>`, `Get` returns the resolution error and no handle,
leaving the filesystem untouched. -/
theorem c5_get_resolution_error (fs : FS) (pn cn : List Char)
    (h1 : fs.env "XDG_CONFIG_HOME".data = [])
    (h2 : fs.env "HOME".data = [])
    (h3 : fs.file (Config.getPath ⟨"/etc".data, pn, cn, true⟩) = none) :
    Get pn cn fs =
      ((none, some (.notExist (Config.getPath ⟨"/etc".data, pn, cn, true⟩))),
       fs) := by
  have hroot : resolveUserRoot fs = ".config".data := by
    unfold resolveUserRoot
    rw [if_pos h1, h2]
    decide
  have hex : Config.Exists ⟨"/etc".data, pn, cn, true⟩ fs = false := by
    unfold Config.Exists FS.stat
    cases hse : fs.statErr (Config.getPath ⟨"/etc".data, pn, cn, true⟩) with
    | some e => simp
    | none => simp [h3]
  unfold Get
  rw [hroot, if_pos rfl]
  unfold getFallback getSysConfig findConfig
  rw [hex]
  simp

/-- C5 (witness): the resolution error observed on the completely empty
world. -/
theorem c5_get_resolution_error_witness :
    (fsC5.env "XDG_CONFIG_HOME".data = [] ∧ fsC5.env "HOME".data = [] ∧
     fsC5.file (Config.getPath ⟨"/etc".data, "p".data, "c".data, true⟩) =
       none) ∧
    Get "p".data "c".data fsC5 =
      ((none, some (.notExist
          (Config.getPath ⟨"/etc".data, "p".data, "c".data, true⟩))), fsC5) :=
  ⟨⟨rfl, rfl, rfl⟩, c5_get_resolution_error fsC5 "p".data "c".data rfl rfl rfl⟩

/-! ### Claim C6: user-root copy and its failure modes -/

/-- C6 (counterexample): the claim says `Get` falls through to
system/temporary resolution "only if the system configuration itself
cannot be found".  In `fsC6` the system configuration at `/etc/p/c`
exists (`findConfig` succeeds on it), the user-root copy fails at
`os.Create`, and `Get` nevertheless falls through and returns the system
handle — so a fall-through happens although the system configuration was
found. -/
theorem c6_fallthrough_counterexample :
    Config.Exists ⟨"/etc".data, "p".data, "c".data, true⟩ fsC6 = true ∧
    (copySysConfig "/u".data "p".data "c".data fsC6).1.2 =
      some (.io (.other 0)) ∧
    (Get "p".data "c".data fsC6).1 =
      (some ⟨"/etc".data, "p".data, "c".data, true⟩, none) := by
  refine ⟨by decide, by decide, by decide⟩

/-- C6 (amended): when a user root is resolvable (the resolved root is not
the `".config"` sentinel) and no user configuration exists there, `Get`
attempts `copySysConfig`; if that copy succeeds `Get` returns the new user
handle, and on any failure of the copy — whether the system configuration
is missing or the copy I/O itself fails — `Get` falls through to the
system/temporary resolution on the filesystem as mutated by the attempt. -/
theorem c6_copy_failure_falls_through (fs : FS) (pn cn : List Char)
    (h1 : resolveUserRoot fs ≠ ".config".data)
    (h2 : Config.Exists ⟨resolveUserRoot fs, pn, cn, true⟩ fs = false) :
    (∀ uc fs1,
      copySysConfig (resolveUserRoot fs) pn cn fs = ((uc, none), fs1) →
      Get pn cn fs = ((uc, none), fs1)) ∧
    (∀ uc e fs1,
      copySysConfig (resolveUserRoot fs) pn cn fs = ((uc, some e), fs1) →
      Get pn cn fs = getFallback pn cn fs1) := by
  have hfind : findConfig (resolveUserRoot fs) pn cn fs =
      .error (.notExist
        (Config.getPath ⟨resolveUserRoot fs, pn, cn, true⟩)) := by
    unfold findConfig
    rw [h2]
    simp
  constructor
  · intro uc fs1 hc
    unfold Get
    rw [if_neg h1, hfind, hc]
  · intro uc e fs1 hc
    unfold Get
    rw [if_neg h1, hfind, hc]

/-- C6 (witness): the failure branch of the amended claim observed on
`fsC6`, where the user-root copy fails at `os.Create`. -/
theorem c6_copy_failure_falls_through_witness :
    (resolveUserRoot fsC6 ≠ ".config".data ∧
     Config.Exists ⟨resolveUserRoot fsC6, "p".data, "c".data, true⟩ fsC6 =
       false) ∧
    Get "p".data "c".data fsC6 =
      getFallback "p".data "c".data
        (copySysConfig (resolveUserRoot fsC6) "p".data "c".data fsC6).2 :=
  ⟨⟨by decide, by decide⟩,
   (c6_copy_failure_falls_through fsC6 "p".data "c".data (by decide)
       (by decide)).2
     (some ⟨"/u".data, "p".data, "c".data, false⟩) (.io (.other 0)) _ rfl⟩

/-! ### Claim C7: watcher loop publications -/

/-- C7: one iteration of the watcher loop publishes nothing for a
notification whose mask is outside {IN_MODIFY, IN_MOVE_SELF,
IN_DELETE_SELF}, and publishes exactly one value for a mask in that set —
the re-read bytes on the content stream when the read succeeds, or the
error on the error stream when it fails. -/
theorem c7_watcher_publications (c : Config) (fs : FS) (mask : Nat) :
    (¬(mask = IN_MODIFY ∨ mask = IN_MOVE_SELF ∨ mask = IN_DELETE_SELF) →
      handleEvent c fs mask = none) ∧
    ((mask = IN_MODIFY ∨ mask = IN_MOVE_SELF ∨ mask = IN_DELETE_SELF) →
      (∀ bs, c.Read fs = .ok bs →
        handleEvent c fs mask = some (.content bs)) ∧
      (∀ e, c.Read fs = .error e →
        handleEvent c fs mask = some (.failure e))) := by
  constructor
  · intro h
    unfold handleEvent
    rw [if_neg h]
  · intro h
    constructor
    · intro bs hr
      unfold handleEvent
      rw [if_pos h, hr]
    · intro e hr
      unfold handleEvent
      rw [if_pos h, hr]

/-- C7 (witness): an `IN_MODIFY` event on a readable file publishes the
file's bytes. -/
theorem c7_watcher_publications_witness :
    (2 = IN_MODIFY ∨ 2 = IN_MOVE_SELF ∨ 2 = IN_DELETE_SELF) ∧
    handleEvent confC7 fsC7 2 = some (.content [5]) :=
  ⟨Or.inl rfl,
   ((c7_watcher_publications confC7 fsC7 2).2 (Or.inl rfl)).1 [5] rfl⟩

/-! ### Claim C8: `Exists` swallows every stat error -/

/-- C8: `Exists` returns `true` exactly when stat on the handle's full
path succeeds, and returns `false` for every stat failure — including
failures other than not-found, such as permission denied.  (It is `Bool`
valued, so it can never return an error.) -/
theorem c8_exists_swallows_errors (c : Config) (fs : FS) :
    (c.Exists fs = true ↔ fs.stat c.getPath = none) ∧
    (∀ e, fs.stat c.getPath = some e → c.Exists fs = false) := by
  constructor
  · unfold Config.Exists
    exact Option.isNone_iff_eq_none
  · intro e h
    unfold Config.Exists
    rw [h]
    rfl

/-- C8 (witness): a permission-denied stat failure is reported as plain
non-existence. -/
theorem c8_exists_swallows_errors_witness :
    FS.stat fsC8 confC8.getPath = some .permissionDenied ∧
    Config.Exists confC8 fsC8 = false :=
  ⟨rfl, (c8_exists_swallows_errors confC8 fsC8).2 .permissionDenied rfl⟩

/-! ### Claim C9: the copy operation on success -/

theorem read_success_spec (cNew src : Config) (fs : FS)
    (h1 : (cNew.read src fs).1 = none)
    (h2 : fs.dirPerm (joinChars [cNew.programPath, cNew.programName]) = none)
    (h3 : src.getPath ≠ cNew.getPath) :
    ((cNew.read src fs).2).dirPerm
        (joinChars [cNew.programPath, cNew.programName]) = some 448 ∧
    ((cNew.read src fs).2).file cNew.getPath = fs.file src.getPath := by
  unfold Config.read FS.mkdirAll FS.openFile FS.createFile FS.ioCopy at h1 ⊢
  cases hm : fs.mkdirErr (joinChars [cNew.programPath, cNew.programName]) with
  | some e => rw [hm] at h1; simp at h1
  | none =>
    rw [hm] at h1
    dsimp only at h1 ⊢
    cases ho : fs.openErr src.getPath with
    | some e => rw [ho] at h1; simp at h1
    | none =>
      rw [ho] at h1
      dsimp only at h1 ⊢
      cases hf : fs.file src.getPath with
      | none => rw [hf] at h1; simp at h1
      | some bs =>
        rw [hf] at h1
        dsimp only [Option.isSome] at h1 ⊢
        rw [if_pos rfl] at h1 ⊢
        dsimp only at h1 ⊢
        cases hc : fs.createErr cNew.getPath with
        | some e => rw [hc] at h1; simp at h1
        | none =>
          rw [hc] at h1
          dsimp only at h1 ⊢
          cases hcp : fs.copyErr cNew.getPath with
          | some e => rw [hcp] at h1; simp at h1
          | none =>
            rw [hcp] at h1
            dsimp only at h1 ⊢
            constructor
            · simp [h2]
            · simp [h3, hf]

/-- C9: a successful `copyConf(newRoot, newProgram, newFile)` creates the
destination directory `<newRoot>/<newProgram>` with owner-only (`0700`,
i.e. 448) permissions when it did not already exist, streams all bytes of
the source file to the truncated destination, and returns a handle whose
`isTemporary` is true exactly when `newRoot` is the temporary root `/tmp`.
(The aliasing hypothesis `h3` excludes the degenerate case in which the
destination path is the source path itself, where `os.Create` truncates
the source before the copy.) -/
theorem c9_copyConf_success (src : Config) (pp pn cn : List Char) (fs : FS)
    (h1 : (src.copyConf pp pn cn fs).1.2 = none)
    (h2 : fs.dirPerm (joinChars [pp, pn]) = none)
    (h3 : src.getPath ≠
      Config.getPath ⟨pp, pn, cn, decide (pp = "/tmp".data)⟩) :
    (src.copyConf pp pn cn fs).1.1 =
      ⟨pp, pn, cn, decide (pp = "/tmp".data)⟩ ∧
    ((src.copyConf pp pn cn fs).1.1.isTemporary = true ↔ pp = "/tmp".data) ∧
    ((src.copyConf pp pn cn fs).2).dirPerm (joinChars [pp, pn]) = some 448 ∧
    ((src.copyConf pp pn cn fs).2).file
        (Config.getPath ⟨pp, pn, cn, decide (pp = "/tmp".data)⟩) =
      fs.file src.getPath := by
  refine ⟨rfl, by simp [Config.copyConf], ?_, ?_⟩
  · exact (read_success_spec ⟨pp, pn, cn, decide (pp = "/tmp".data)⟩
      src fs h1 h2 h3).1
  · exact (read_success_spec ⟨pp, pn, cn, decide (pp = "/tmp".data)⟩
      src fs h1 h2 h3).2

/-- C9 (witness): the copy from `/etc/p/c` into the fresh root `/u`
observed on the concrete world `fsC9`. -/
theorem c9_copyConf_success_witness :
    ((Config.copyConf confC9 "/u".data "p".data "c".data fsC9).1.2 = none ∧
     fsC9.dirPerm (joinChars ["/u".data, "p".data]) = none) ∧
    (((Config.copyConf confC9 "/u".data "p".data "c".data fsC9).2).dirPerm
        (joinChars ["/u".data, "p".data]) = some 448 ∧
     ((Config.copyConf confC9 "/u".data "p".data "c".data fsC9).2).file
        (Config.getPath ⟨"/u".data, "p".data, "c".data,
          decide ("/u".data = "/tmp".data)⟩) = fsC9.file confC9.getPath) :=
  ⟨⟨rfl, rfl⟩,
   ⟨(c9_copyConf_success confC9 "/u".data "p".data "c".data fsC9 rfl rfl
       (by decide)).2.2.1,
    (c9_copyConf_success confC9 "/u".data "p".data "c".data fsC9 rfl rfl
       (by decide)).2.2.2⟩⟩

/-! ### Claim C10: a handle is returned even when the copy fails -/

/-- C10: `copyConf` always returns a fully constructed destination handle
— with the destination components and the `/tmp`-derived `isTemporary`
flag — regardless of whether the copy erred, and `makeTmp` always returns
the `/tmp` handle; moreover the failure is not atomic: on the concrete
empty world the copy fails at `os.Open` with not-found, yet the
destination directory has already been created with `0700` permissions. -/
theorem c10_copy_error_returns_handle :
    (∀ (src : Config) (pp pn cn : List Char) (fs : FS),
      (src.copyConf pp pn cn fs).1.1 =
        ⟨pp, pn, cn, decide (pp = "/tmp".data)⟩) ∧
    (∀ (src : Config) (fs : FS),
      (src.makeTmp fs).1.1 =
        ⟨"/tmp".data, src.programName, src.confName, true⟩) ∧
    ((Config.copyConf confC10 "/u".data "p".data "c".data fsC10).1.2 =
        some .notFound ∧
     fsC10.dirPerm (joinChars ["/u".data, "p".data]) = none ∧
     ((Config.copyConf confC10 "/u".data "p".data "c".data fsC10).2).dirPerm
        (joinChars ["/u".data, "p".data]) = some 448) := by
  refine ⟨fun src pp pn cn fs => rfl, fun src fs => rfl, by decide, rfl,
    by decide⟩
